import Mathlib

/-!
Shallow embedding of the execution-safety layer of the dev-skin repository:
`adapter/security/commandAllowlist.js`, `adapter/security/sandbox.js`,
the `/create-pr` confirmation gate in `adapter/index.js`, and the keychain
secret store.  JavaScript strings are modelled as Lean `String` / `List Char`;
the JS regular expressions used by the denylist are embedded by a small
backtracking matcher (`matchHere` / `searchIn`).  Case-insensitive matching
(`/i` without `/u`) is modelled for the ASCII range, which covers every
pattern character appearing in the source.
-/

/-- The JS `\s` / `String.prototype.trim` whitespace class, restricted to the
ASCII range used by the commands this layer handles. -/
def jsWhitespace (c : Char) : Bool :=
  c == ' ' || c == '\t' || c == '\n' || c == '\r' || c == '\x0b' || c == '\x0c'

/-- ASCII upper-casing, used to model the `/i` flag: a lowercase pattern
character `c` matches an input character `d` iff `d = c` or `d = upChar c`. -/
def upChar (c : Char) : Char :=
  if 'a' ≤ c ∧ c ≤ 'z' then Char.ofNat (c.toNat - 32) else c

/-- One atom of an embedded JS regular expression. -/
inductive RAtom where
  | lit (c : Char)
  | dot
  | ws
deriving DecidableEq, Repr

/-- An atom together with its quantifier (`a`, `a+`, `a*`). -/
inductive RItem where
  | once (a : RAtom)
  | plus (a : RAtom)
  | star (a : RAtom)
deriving DecidableEq, Repr

def matchAtom : RAtom → Char → Bool
  | .lit c, d => d == c || d == upChar c
  | .dot, d => !(d == '\n' || d == '\r')
  | .ws, d => jsWhitespace d

/-- Can the item sequence match the empty string?  (Exactly when every
leading item is starred.) -/
def nullMatch : List RItem → Bool
  | [] => true
  | .once _ :: _ => false
  | .plus _ :: _ => false
  | .star _ :: rest => nullMatch rest

/-- All item sequences that can remain after the pattern consumes the input
character `c` first. -/
def stepItems : List RItem → Char → List (List RItem)
  | [], _ => []
  | .once a :: rest, c => if matchAtom a c then [rest] else []
  | .plus a :: rest, c => if matchAtom a c then [.star a :: rest] else []
  | .star a :: rest, c =>
      (if matchAtom a c then [.star a :: rest] else []) ++ stepItems rest c

/-- Does the item sequence match a prefix of `s` (the whole of `s` when
`anchor` is true, modelling a trailing `$`)?  This decides existence of a
match, which coincides with the JS engine's success/failure for the
capture-free patterns of the source. -/
def matchHere (items : List RItem) (anchor : Bool) : List Char → Bool
  | [] => nullMatch items
  | c :: cs =>
      (!anchor && nullMatch items) ||
        (stepItems items c).any (fun next => matchHere next anchor cs)

/-- Unanchored search: does the pattern match starting at some position? -/
def searchIn (items : List RItem) (anchor : Bool) : List Char → Bool
  | [] => matchHere items anchor []
  | c :: cs => matchHere items anchor (c :: cs) || searchIn items anchor cs

/-- An embedded JS regular expression: an item sequence plus an optional
end anchor (`$`). -/
structure JsRegex where
  items : List RItem
  anchorEnd : Bool
deriving DecidableEq, Repr

/-- `pattern.test(command)` for the embedded patterns. -/
def rtest (p : JsRegex) (s : String) : Bool :=
  searchIn p.items p.anchorEnd s.data

def lit1 (c : Char) : RItem := .once (.lit c)

def litsOf (s : String) : List RItem := s.data.map lit1

def wsPlus : RItem := .plus .ws
def wsStar : RItem := .star .ws
def dotStar : RItem := .star .dot

/-- The `DANGEROUS_PATTERNS` array of `commandAllowlist.js`, pattern by
pattern, in source order. -/
def DANGEROUS_PATTERNS : List JsRegex :=
  [ ⟨litsOf "rm" ++ [wsPlus] ++ litsOf "-rf", false⟩,
    ⟨litsOf "rm" ++ [wsPlus, lit1 '-', lit1 'r', wsPlus], false⟩,
    ⟨litsOf "del" ++ [wsPlus] ++ litsOf "/s", false⟩,
    ⟨litsOf "rmdir" ++ [wsPlus] ++ litsOf "/s", false⟩,
    ⟨litsOf "format" ++ [wsPlus], false⟩,
    ⟨litsOf "mkfs", false⟩,
    ⟨litsOf "dd" ++ [wsPlus] ++ litsOf "if=", false⟩,
    ⟨litsOf "shutdown", false⟩,
    ⟨litsOf "reboot", false⟩,
    ⟨litsOf "sudo", false⟩,
    ⟨litsOf "su" ++ [wsPlus], false⟩,
    ⟨[lit1 '|', wsStar] ++ litsOf "sh" ++ [wsStar], true⟩,
    ⟨[lit1 '|', wsStar] ++ litsOf "bash" ++ [wsStar], true⟩,
    ⟨[lit1 '|', wsStar] ++ litsOf "cmd" ++ [wsStar], true⟩,
    ⟨[lit1 '|', wsStar] ++ litsOf "powershell" ++ [wsStar], true⟩,
    ⟨[lit1 '>', wsStar] ++ litsOf "/dev/null", false⟩,
    ⟨litsOf "curl" ++ [wsPlus, dotStar, wsPlus, lit1 '|', wsStar] ++ litsOf "sh", false⟩,
    ⟨litsOf "wget" ++ [wsPlus, dotStar, wsPlus, lit1 '|', wsStar] ++ litsOf "sh", false⟩,
    ⟨litsOf "eval" ++ [wsStar, lit1 '('], false⟩,
    ⟨litsOf "exec" ++ [wsStar, lit1 '('], false⟩,
    ⟨litsOf "system" ++ [wsStar, lit1 '('], false⟩,
    ⟨litsOf "chmod" ++ [wsPlus] ++ litsOf "777", false⟩,
    ⟨litsOf "chown" ++ [wsPlus], false⟩,
    ⟨litsOf "kill" ++ [wsPlus] ++ litsOf "-9", false⟩,
    ⟨litsOf "pkill", false⟩ ]

/-! ## `commandAllowlist.js`: allowlist, parsing, validation -/

/-- The `ALLOWED_COMMANDS` object of `commandAllowlist.js` as an association
list (own properties only), in source order. -/
def ALLOWED_COMMANDS : List (String × List String) :=
  [ ("git",
      [ "status", "diff", "log", "ls-files", "diff --cached --name-only",
        "checkout -b", "add .", "commit -m", "push -u origin", "branch",
        "remote -v", "show" ]),
    ("npm", ["test", "run test"]),
    ("yarn", ["test"]),
    ("node", []),
    ("python", ["-m pytest", "-m unittest"]),
    ("pytest", []),
    ("ls", []),
    ("dir", []),
    ("pwd", []),
    ("echo", []) ]

/-- `l.split(sep)[0]`: the characters before the first occurrence of `sep`
(the whole list when `sep` is absent). -/
def takeUntilChar (sep : Char) (l : List Char) : List Char :=
  l.takeWhile (fun d => !(d == sep))

/-- Strip trailing JS whitespace. -/
def dropTrailingWs (l : List Char) : List Char :=
  (l.reverse.dropWhile (fun c => jsWhitespace c)).reverse

/-- `String.prototype.trim` on the character list. -/
def jsTrimList (l : List Char) : List Char :=
  dropTrailingWs (l.dropWhile (fun c => jsWhitespace c))

/-- The sanitisation chain of `validateCommand` (lines 139-144 of the
source): cut at the first `|`, `>`, `<`, `&` in that order, then trim. -/
def sanitizeChain (l : List Char) : List Char :=
  jsTrimList (takeUntilChar '&' (takeUntilChar '<' (takeUntilChar '>' (takeUntilChar '|' l))))

/-- Helper for `wordsOf`: `cur` is the reversed current word. -/
def wordsOfAux (cur : List Char) : List Char → List (List Char)
  | [] => if cur.isEmpty then [] else [cur.reverse]
  | c :: cs =>
      if jsWhitespace c then
        if cur.isEmpty then wordsOfAux [] cs else cur.reverse :: wordsOfAux [] cs
      else wordsOfAux (c :: cur) cs

/-- `trimmed.split(/\s+/)` on an already-trimmed string: the whitespace-run
separated words. -/
def wordsOf (l : List Char) : List (List Char) := wordsOfAux [] l

/-- `parts.slice(1).join(' ')`. -/
def joinSpace : List (List Char) → List Char
  | [] => []
  | [w] => w
  | w :: rest => w ++ ' ' :: joinSpace rest

/-- JS object own-property lookup on the allowlist. -/
def lookupCmd (k : String) : List (String × List String) → Option (List String)
  | [] => none
  | (k', v) :: rest => if k = k' then some v else lookupCmd k rest

/-- Compile an allowed-argument string into regex items as
`allowedArg.replace(/\s+/g, '\\s+')` does: each maximal whitespace run
becomes `\s+`; `.` is the regex any-character; everything else is literal.
`inWs` records whether the previous character was part of a whitespace run. -/
def compileArgAux (inWs : Bool) : List Char → List RItem
  | [] => []
  | c :: cs =>
      if jsWhitespace c then
        (if inWs then [] else [wsPlus]) ++ compileArgAux true cs
      else
        (if c = '.' then RItem.once .dot else lit1 c) :: compileArgAux false cs

/-- One allowed-argument check of `isCommandAllowed`: exact match, or the
case-insensitive prefix regex `^pattern`. -/
def matchesAllowedArg (allowedArg : String) (args : String) : Bool :=
  args == allowedArg || matchHere (compileArgAux false allowedArg.data) false args.data

/-- `isCommandAllowed` from `commandAllowlist.js` (lines 86-126). -/
def isCommandAllowed (command : String) : Bool :=
  if command = "" then false
  else if DANGEROUS_PATTERNS.any (fun p => rtest p command) then false
  else
    match wordsOf (jsTrimList command.data) with
    | [] => false
    | base :: restParts =>
      match lookupCmd (String.mk base) ALLOWED_COMMANDS with
      | none => false
      | some allowedArgs =>
        if allowedArgs.isEmpty then true
        else allowedArgs.any (fun a => matchesAllowedArg a (String.mk (joinSpace restParts)))

/-- The `ValidationResult` record returned by `validateCommand`. -/
structure ValidationResult where
  allowed : Bool
  sanitized : Option String
  reason : Option String
deriving DecidableEq, Repr

/-- `validateCommand` from `commandAllowlist.js` (lines 133-155). -/
def validateCommand (command : String) : ValidationResult :=
  if command = "" then
    { allowed := false, sanitized := none, reason := some "Invalid command" }
  else
    let sanitized := String.mk (sanitizeChain command.data)
    if sanitized ≠ String.mk (jsTrimList command.data) then
      { allowed := false, sanitized := none, reason := some "Shell redirection/piping not allowed" }
    else if isCommandAllowed sanitized then
      { allowed := true, sanitized := some sanitized, reason := none }
    else
      { allowed := false, sanitized := none, reason := some "Command not in allowlist" }

/-! ## `sandbox.js`: `executeSandboxed`

The child-process lifetime of one invocation is modelled as a fold over the
sequence of asynchronous events that fire (timer expiry, stream data, the
5-second force-kill timer, process exit, spawn error), each handler
transcribed from lines 65-135 of the source.  The promise's settle-once
semantics is `settleWith`; `termSent`/`sigkillSent` record the signals sent
to the child, and `termSent` is Node's `childProcess.killed` property (true
once a signal was successfully *sent*). -/

/-- How one sandbox invocation settled: `resolve(...)` from the exit
handler, or `reject(new Error(...))` from one of the failure handlers. -/
inductive RejectKind where
  | timeoutErr
  | stdoutOverflow
  | stderrOverflow
  | processErr
deriving DecidableEq, Repr

/-- The object resolved by the exit handler (lines 120-125). -/
structure ExecResult where
  success : Bool
  stdout : List Char
  stderr : List Char
  exitCode : Int
deriving DecidableEq, Repr

inductive Settled where
  | resolvedOk (r : ExecResult)
  | rejectedErr (k : RejectKind)
deriving DecidableEq, Repr

/-- The mutable state of one `executeSandboxed` promise executor. -/
structure SandboxState where
  stdoutBuf : List Char
  stderrBuf : List Char
  killed : Bool
  timerActive : Bool
  graceScheduled : Bool
  termSent : Bool
  sigkillSent : Bool
  childExited : Bool
  settled : Option Settled
deriving DecidableEq, Repr

/-- JS promise semantics: only the first `resolve`/`reject` takes effect. -/
def settleWith (st : SandboxState) (o : Settled) : SandboxState :=
  if st.settled = none then { st with settled := some o } else st

/-- The asynchronous events that can fire during one invocation. -/
inductive SandboxEvent where
  | timeoutFire
  | graceFire
  | stdoutData (chunk : List Char)
  | stderrData (chunk : List Char)
  | exited (code : Option Int) (signal : Bool)
  | errored
deriving DecidableEq, Repr

/-- `exitCode: code || (signal ? 1 : 0)` — note `0` and `null` are falsy. -/
def jsExitCode (code : Option Int) (signal : Bool) : Int :=
  match code with
  | some c => if c ≠ 0 then c else if signal then 1 else 0
  | none => if signal then 1 else 0

/-- One event handler, transcribed from `sandbox.js`:
timeout (70-84), stdout/stderr data (87-110), the inner force-kill timer
(76-80, which tests `!childProcess.killed`), exit (113-126), error
(129-135). -/
def sandboxStep (maxBuffer : Nat) (st : SandboxState) (e : SandboxEvent) : SandboxState :=
  match e with
  | .timeoutFire =>
      if st.timerActive then
        if st.killed then { st with timerActive := false }
        else
          settleWith
            { st with timerActive := false, killed := true, termSent := true,
                      graceScheduled := true }
            (.rejectedErr .timeoutErr)
      else st
  | .graceFire =>
      if st.graceScheduled then
        if st.termSent || st.sigkillSent then { st with graceScheduled := false }
        else { st with graceScheduled := false, sigkillSent := true }
      else st
  | .stdoutData chunk =>
      if (st.stdoutBuf ++ chunk).length > maxBuffer then
        if st.killed then { st with stdoutBuf := st.stdoutBuf ++ chunk }
        else
          settleWith
            { st with stdoutBuf := st.stdoutBuf ++ chunk, killed := true,
                      termSent := true, timerActive := false }
            (.rejectedErr .stdoutOverflow)
      else { st with stdoutBuf := st.stdoutBuf ++ chunk }
  | .stderrData chunk =>
      if (st.stderrBuf ++ chunk).length > maxBuffer then
        if st.killed then { st with stderrBuf := st.stderrBuf ++ chunk }
        else
          settleWith
            { st with stderrBuf := st.stderrBuf ++ chunk, killed := true,
                      termSent := true, timerActive := false }
            (.rejectedErr .stderrOverflow)
      else { st with stderrBuf := st.stderrBuf ++ chunk }
  | .exited code signal =>
      let st' := { st with timerActive := false, childExited := true }
      if st'.killed then st'
      else
        settleWith st'
          (.resolvedOk
            { success := code = some 0,
              stdout := st'.stdoutBuf.take maxBuffer,
              stderr := st'.stderrBuf.take maxBuffer,
              exitCode := jsExitCode code signal })
  | .errored =>
      let st' := { st with timerActive := false }
      if st'.killed then st'
      else settleWith { st' with killed := true } (.rejectedErr .processErr)

def initialSandboxState : SandboxState :=
  { stdoutBuf := [], stderrBuf := [], killed := false, timerActive := true,
    graceScheduled := false, termSent := false, sigkillSent := false,
    childExited := false, settled := none }

def runSandbox (maxBuffer : Nat) (evs : List SandboxEvent) : SandboxState :=
  evs.foldl (sandboxStep maxBuffer) initialSandboxState

/-- The externally observable outcome of `executeSandboxed`. -/
inductive ExecOutcome where
  | thrownNotAllowed (msg : String)
  | pending
  | resolvedOk (r : ExecResult)
  | rejectedErr (k : RejectKind)
deriving DecidableEq, Repr

/-- `executeSandboxed` (lines 27-137): validate first and throw on
rejection; otherwise the promise outcome is determined by the event fold. -/
def executeSandboxed (command : String) (maxBuffer : Nat)
    (evs : List SandboxEvent) : ExecOutcome :=
  let validation := validateCommand command
  if validation.allowed then
    match (runSandbox maxBuffer evs).settled with
    | none => .pending
    | some (.resolvedOk r) => .resolvedOk r
    | some (.rejectedErr k) => .rejectedErr k
  else
    .thrownNotAllowed ("Command not allowed: " ++ validation.reason.getD "Unknown reason")

/-! ## `adapter/index.js` `/create-pr`: the confirmation gate -/

/-- The preview object built at lines 587-596 / 605-614. -/
structure PrPreview where
  branchName : String
  commitMessage : String
  stagedFiles : List String
  operations : List String
deriving DecidableEq, Repr

/-- Full split of a string on a character (JS `String.prototype.split`). -/
def splitOnChar (sep : Char) (l : List Char) : List (List Char) :=
  match l with
  | [] => [[]]
  | c :: cs =>
      let rest := splitOnChar sep cs
      if c = sep then [] :: rest
      else
        match rest with
        | [] => [[c]]
        | w :: ws => (c :: w) :: ws

/-- `stagedChanges ? stagedChanges.split('\n') : []`. -/
def stagedFilesOf (stagedChanges : String) : List String :=
  if stagedChanges = "" then []
  else (splitOnChar '\n' stagedChanges.data).map String.mk

def prPreview (branchName commitMessage stagedChanges : String) : PrPreview :=
  { branchName := branchName,
    commitMessage := commitMessage,
    stagedFiles := stagedFilesOf stagedChanges,
    operations :=
      [ "Would create branch: " ++ branchName,
        "Would commit with message: " ++ commitMessage,
        "Would push to remote (if configured)" ] }

/-- `commitMessage.replace(/"/g, '\\"')` (line 638). -/
def escapeQuotes (s : String) : String :=
  String.mk (s.data.foldr (fun c acc => if c = '"' then '\\' :: '"' :: acc else c :: acc) [])

/-- The response of the `/create-pr` route, by branch taken. -/
inductive CreatePrResponse where
  | missingFields
  | confirmationRequired (preview : PrPreview)
  | dryRunPreview (preview : PrPreview)
  | executed (branchName commitMessage : String)
deriving DecidableEq, Repr

structure CreatePrOutput where
  response : CreatePrResponse
  /-- The sandboxed git mutation commands the route actually runs
  (lines 623-650); empty in every preview branch. -/
  gitMutations : List String
deriving DecidableEq, Repr

/-- The confirmation-gate logic of `POST /create-pr` (lines 551-676).
`confirm` is the request-body field: `some true` is JS `true`, anything
else (`false`, absent, non-boolean) fails the strict `confirm !== true`
test.  `stagedChanges` is the (read-only) `git diff --cached --name-only`
output gathered before the gate. -/
def createPr (dryRun : Bool) (branchName commitMessage stagedChanges : String)
    (confirm : Option Bool) : CreatePrOutput :=
  if branchName = "" ∨ commitMessage = "" then
    { response := .missingFields, gitMutations := [] }
  else if !dryRun && confirm ≠ some true then
    { response := .confirmationRequired (prPreview branchName commitMessage stagedChanges),
      gitMutations := [] }
  else if dryRun || confirm ≠ some true then
    { response := .dryRunPreview (prPreview branchName commitMessage stagedChanges),
      gitMutations := [] }
  else
    { response := .executed branchName commitMessage,
      gitMutations :=
        ["git checkout -b " ++ branchName]
          ++ (if stagedChanges ≠ "" then ["git add ."] else [])
          ++ ["git commit -m \"" ++ escapeQuotes commitMessage ++ "\"",
              "git push -u origin " ++ branchName] }

/-! ## Keychain secret store (`storeApiKey`) -/

/-- The backend situation one `storeApiKey` call observes: whether the
`keytar` import succeeded (`keychainAvailable && keytarInstance`), and, if
it did, whether `setPassword` throws at runtime, with the error message. -/
structure KeychainEnv where
  importOk : Bool
  setPasswordError : Option String
deriving DecidableEq, Repr

/-- The outcome of `storeApiKey`: a returned boolean (with whether the
keychain-unavailable warning was logged), or a thrown error. -/
inductive StoreOutcome where
  | returned (value : Bool) (warnedUnavailable : Bool)
  | threw (msg : String)
deriving DecidableEq, Repr

/-- `storeApiKey` (lines 37-57 of the keychain module): invalid keys throw;
with the backend loaded, `setPassword` success returns `true` and a
`setPassword` error is wrapped and rethrown; without the backend it warns
and returns `false`. -/
def storeApiKey (env : KeychainEnv) (key : String) : StoreOutcome :=
  if key = "" then .threw "Invalid API key"
  else if env.importOk then
    match env.setPasswordError with
    | none => .returned true false
    | some m => .threw ("Keychain storage failed: " ++ m)
  else .returned false true

/-- Events whose handler always leaves the invocation settled: process exit
and spawn error. -/
def isTerminal : SandboxEvent → Bool
  | .exited _ _ => true
  | .errored => true
  | _ => false

/-- Every settlement value the fold can create keeps each captured stream
within `maxBuffer` whenever it resolves. -/
def resolvedCapped (N : Nat) (st : SandboxState) : Prop :=
  ∀ r, st.settled = some (.resolvedOk r) → r.stdout.length ≤ N ∧ r.stderr.length ≤ N

/-- A conservative, executable check that the pattern cannot match at the
start of `pre ++ t` for *any* continuation `t`: the match must die on a
mismatch inside `pre`. -/
def prefixBlocked (items : List RItem) : List Char → Bool
  | [] => false
  | c :: cs => !nullMatch items && (stepItems items c).all (fun next => prefixBlocked next cs)

/-! ## Sanity checks, evaluated against the behaviour documented in the
repository (spec §8 examples and the security summary) -/

example : rtest ⟨litsOf "su" ++ [wsPlus], false⟩ "ls su " = true := by decide
example : rtest ⟨litsOf "su" ++ [wsPlus], false⟩ "ls su" = false := by decide
example : rtest ⟨litsOf "sudo", false⟩ "SUDO ls" = true := by decide
example : rtest ⟨[lit1 '|', wsStar] ++ litsOf "sh" ++ [wsStar], true⟩ "x | sh" = true := by decide
example : rtest ⟨[lit1 '|', wsStar] ++ litsOf "sh" ++ [wsStar], true⟩ "x | shx" = false := by
  decide
example : rtest ⟨litsOf "curl" ++ [wsPlus, dotStar, wsPlus, lit1 '|', wsStar] ++ litsOf "sh",
    false⟩ "curl a.b | sh" = true := by decide

example : (validateCommand "git status").allowed = true := by decide
example : (validateCommand "git status && rm -rf /").reason
    = some "Shell redirection/piping not allowed" := by decide
example : (validateCommand "rm -rf /tmp").allowed = false := by decide
example : (validateCommand "sudo npm test").allowed = false := by decide
example : (validateCommand "npm test").allowed = true := by decide
example : (validateCommand "git checkout -b feature-x").allowed = true := by decide
example : (validateCommand "node anything-at-all.js").allowed = true := by decide
example : (validateCommand "ls su ").allowed = true := by decide
example : (validateCommand "echo hi").allowed = true := by decide

example :
    executeSandboxed "echo hi" 10 [.stdoutData "hi\n".data, .exited (some 0) false]
      = .resolvedOk { success := true, stdout := "hi\n".data, stderr := [], exitCode := 0 } := by
  decide

example :
    executeSandboxed "echo hi" 2 [.stdoutData "hi\n".data, .exited (some 0) false]
      = .rejectedErr .stdoutOverflow := by decide

example : executeSandboxed "sudo ls" 10 []
    = .thrownNotAllowed "Command not allowed: Command not in allowlist" := by decide

/-! ## Sandbox lemmas: settle-once discipline -/

theorem settled_step_stable {N : Nat} {st : SandboxState} {e : SandboxEvent} {o : Settled}
    (h : st.settled = some o) : (sandboxStep N st e).settled = some o := by
  cases e <;> simp only [sandboxStep, settleWith] <;>
    repeat' first
      | rfl
      | exact h
      | (split <;> try simp_all)

theorem settled_foldl_stable {N : Nat} {o : Settled} :
    ∀ (evs : List SandboxEvent) (st : SandboxState), st.settled = some o →
      (evs.foldl (sandboxStep N) st).settled = some o := by
  intro evs
  induction evs with
  | nil => intro st h; simpa using h
  | cons e rest ih =>
      intro st h
      exact ih _ (settled_step_stable h)

theorem step_preserves_kill_inv {N : Nat} {st : SandboxState} {e : SandboxEvent}
    (h : st.killed = true → st.settled ≠ none) :
    (sandboxStep N st e).killed = true → (sandboxStep N st e).settled ≠ none := by
  cases e <;> simp only [sandboxStep, settleWith] <;>
    repeat' first
      | exact h
      | (split <;> try simp_all)

theorem step_terminal_settles {N : Nat} {st : SandboxState} {e : SandboxEvent}
    (hinv : st.killed = true → st.settled ≠ none) (hterm : isTerminal e = true) :
    (sandboxStep N st e).settled ≠ none := by
  cases e <;> simp only [isTerminal] at hterm <;>
    simp only [sandboxStep, settleWith] <;>
      repeat' first
        | exact hinv rfl
        | (split <;> try simp_all)

theorem settled_step_ne_none {N : Nat} {st : SandboxState} {e : SandboxEvent}
    (h : st.settled ≠ none) : (sandboxStep N st e).settled ≠ none := by
  obtain ⟨o, ho⟩ := Option.ne_none_iff_exists'.mp h
  rw [settled_step_stable ho]
  simp

theorem foldl_terminal_settles {N : Nat} :
    ∀ (evs : List SandboxEvent) (st : SandboxState),
      (st.killed = true → st.settled ≠ none) →
      (∃ e ∈ evs, isTerminal e = true) →
      (evs.foldl (sandboxStep N) st).settled ≠ none := by
  intro evs
  induction evs with
  | nil => intro st _ h; simp at h
  | cons e rest ih =>
      intro st hinv h
      rcases h with ⟨e', he', hterm⟩
      rcases List.mem_cons.mp he' with rfl | hmem
      · -- the head event is terminal: settled after it, and stays settled
        have h1 : (sandboxStep N st e').settled ≠ none := step_terminal_settles hinv hterm
        obtain ⟨o, ho⟩ := Option.ne_none_iff_exists'.mp h1
        simp only [List.foldl_cons]
        rw [settled_foldl_stable rest _ ho]
        simp
      · exact ih _ (step_preserves_kill_inv hinv) ⟨e', hmem, hterm⟩

/-- Only a natural-exit event can make the promise resolve (rather than
reject). -/
theorem step_resolve_only_exit {N : Nat} {st : SandboxState} {e : SandboxEvent}
    (hnr : ∀ r, st.settled ≠ some (.resolvedOk r))
    (hne : ∀ c sg, e ≠ .exited c sg) :
    ∀ r, (sandboxStep N st e).settled ≠ some (.resolvedOk r) := by
  cases e <;> simp only [sandboxStep, settleWith]
  case exited c sg => exact absurd rfl (hne c sg)
  all_goals
    intro r
    repeat' first
      | exact hnr r
      | (split <;> try simp_all)

theorem foldl_resolved_has_exit {N : Nat} :
    ∀ (evs : List SandboxEvent) (st : SandboxState) (r : ExecResult),
      (∀ r', st.settled ≠ some (.resolvedOk r')) →
      (evs.foldl (sandboxStep N) st).settled = some (.resolvedOk r) →
      ∃ c sg, SandboxEvent.exited c sg ∈ evs := by
  intro evs
  induction evs with
  | nil => intro st r hnr h; exact absurd h (hnr r)
  | cons e rest ih =>
      intro st r hnr h
      by_cases hex : ∃ c sg, e = .exited c sg
      · obtain ⟨c, sg, rfl⟩ := hex
        exact ⟨c, sg, List.mem_cons_self _ _⟩
      · push_neg at hex
        have hnr' := step_resolve_only_exit (N := N) hnr
          (fun c sg hce => hex c sg hce)
        obtain ⟨c, sg, hm⟩ := ih _ r hnr' h
        exact ⟨c, sg, List.mem_cons_of_mem _ hm⟩

theorem step_preserves_resolvedCapped {N : Nat} {st : SandboxState} {e : SandboxEvent}
    (h : resolvedCapped N st) : resolvedCapped N (sandboxStep N st e) := by
  cases e <;> simp only [sandboxStep, settleWith, resolvedCapped] at h ⊢ <;>
    intro r hr
  case exited code signal =>
    revert hr
    repeat' first
      | (intro hr; exact h r hr)
      | split
    all_goals intro hr
    all_goals first
      | exact h r hr
      | · simp only [Option.some.injEq, Settled.resolvedOk.injEq] at hr
          subst hr
          constructor <;> simp [List.length_take]
  all_goals
    revert hr
    repeat' first
      | (intro hr; exact h r hr)
      | split
    all_goals intro hr
    all_goals first
      | exact h r hr
      | simp_all

theorem foldl_resolvedCapped {N : Nat} :
    ∀ (evs : List SandboxEvent) (st : SandboxState),
      resolvedCapped N st → resolvedCapped N (evs.foldl (sandboxStep N) st) := by
  intro evs
  induction evs with
  | nil => intro st h; simpa using h
  | cons e rest ih => intro st h; exact ih _ (step_preserves_resolvedCapped h)

/-! ## Claim theorems for the sandbox (C1, C2, C3, C7) -/

/-- C1 (counterexample): a policy rejection (`NotAllowed`) is *not*
represented inside a returned `ExecutionResult` — `executeSandboxed` throws
before spawning anything, contradicting "fails only by returning a result
whose violation field is non-None ... never raises past its own boundary
except for unrecoverable process-creation failure". -/
theorem executeSandboxed_throws_on_policy_rejection :
    executeSandboxed "sudo npm test" 10 []
      = .thrownNotAllowed "Command not allowed: Command not in allowlist" := by decide

/-- C1 (amended): `executeSandboxed` signals failures by raising — it
throws exactly when validation rejects the command, and a resolved result
(the only non-raising outcome) arises only from a natural process-exit
event; timeouts, output overflows and spawn errors reject the promise. -/
theorem executeSandboxed_raises_for_violations (cmd : String) (N : Nat)
    (evs : List SandboxEvent) :
    ((∃ msg, executeSandboxed cmd N evs = .thrownNotAllowed msg)
        ↔ (validateCommand cmd).allowed = false)
    ∧ (∀ r, executeSandboxed cmd N evs = .resolvedOk r →
        ∃ c sg, SandboxEvent.exited c sg ∈ evs) := by
  constructor
  · constructor
    · rintro ⟨msg, hmsg⟩
      by_contra hal
      rw [Bool.not_eq_false] at hal
      simp only [executeSandboxed, hal, if_true] at hmsg
      split at hmsg <;> simp_all
    · intro hal
      refine ⟨"Command not allowed: " ++ (validateCommand cmd).reason.getD "Unknown reason", ?_⟩
      simp [executeSandboxed, hal]
  · intro r hr
    by_cases hal : (validateCommand cmd).allowed
    · simp only [executeSandboxed, hal, if_true] at hr
      have hset : (runSandbox N evs).settled = some (.resolvedOk r) := by
        split at hr <;> simp_all
      exact foldl_resolved_has_exit evs initialSandboxState r (by simp [initialSandboxState]) hset
    · rw [Bool.not_eq_true] at hal
      simp [executeSandboxed, hal] at hr

theorem executeSandboxed_raises_for_violations_witness :
    (validateCommand "sudo ls").allowed = false ∧
      (∃ msg, executeSandboxed "sudo ls" 10 [] = .thrownNotAllowed msg) :=
  ⟨by decide, (executeSandboxed_raises_for_violations "sudo ls" 10 []).1.mpr (by decide)⟩

/-- C2: once any of the racing event sources has settled the invocation, the
settlement exists and every later-arriving event leaves it unchanged — a
terminal event guarantees a unique settled outcome that later timeout,
output-limit or exit events cannot alter. -/
theorem sandbox_resolution_exactly_once (N : Nat) (evs evs' : List SandboxEvent)
    (h : ∃ e ∈ evs, isTerminal e = true) :
    ∃ o, (runSandbox N evs).settled = some o
      ∧ (runSandbox N (evs ++ evs')).settled = some o := by
  have h1 : (runSandbox N evs).settled ≠ none :=
    foldl_terminal_settles evs initialSandboxState (by simp [initialSandboxState]) h
  obtain ⟨o, ho⟩ := Option.ne_none_iff_exists'.mp h1
  refine ⟨o, ho, ?_⟩
  unfold runSandbox
  rw [List.foldl_append]
  exact settled_foldl_stable evs' _ ho

theorem sandbox_resolution_exactly_once_witness :
    (∃ e ∈ [SandboxEvent.stdoutData "aaaaaa".data, SandboxEvent.exited (some 0) false],
        isTerminal e = true) ∧
      (∃ o, (runSandbox 4 [SandboxEvent.stdoutData "aaaaaa".data,
              SandboxEvent.exited (some 0) false]).settled = some o
        ∧ (runSandbox 4 ([SandboxEvent.stdoutData "aaaaaa".data,
              SandboxEvent.exited (some 0) false] ++ [SandboxEvent.stderrData "bbbbbb".data])).settled
            = some o) :=
  ⟨by decide,
    sandbox_resolution_exactly_once 4
      [SandboxEvent.stdoutData "aaaaaa".data, SandboxEvent.exited (some 0) false]
      [SandboxEvent.stderrData "bbbbbb".data] (by decide)⟩

/-- C3 (counterexample): with `maxBuffer = 4`, a run whose combined
stdout+stderr is 8 bytes (4 on each stream) resolves as a success with all
8 bytes captured — the limit is per stream, so neither `OutputExceeded`
nor the combined `≤ N` bound of the claim holds. -/
theorem combined_output_over_limit_resolves :
    executeSandboxed "echo x" 4
        [.stdoutData "aaaa".data, .stderrData "bbbb".data, .exited (some 0) false]
      = .resolvedOk { success := true, stdout := "aaaa".data, stderr := "bbbb".data, exitCode := 0 }
    ∧ 4 < "aaaa".data.length + "bbbb".data.length := by decide

/-- C3 (amended): the output limit is enforced per stream — the instant
accumulated stdout alone exceeds `maxBuffer` the promise is rejected with
the output-overflow error (no result object), and any resolved result has
each stream separately truncated to at most `maxBuffer`. -/
theorem output_limit_per_stream (N : Nat) (cmd : String) (evs : List SandboxEvent) :
    (∀ r, executeSandboxed cmd N evs = .resolvedOk r →
        r.stdout.length ≤ N ∧ r.stderr.length ≤ N)
    ∧ (∀ (st : SandboxState) (chunk : List Char),
        st.settled = none → st.killed = false → N < (st.stdoutBuf ++ chunk).length →
        (sandboxStep N st (.stdoutData chunk)).settled
          = some (.rejectedErr .stdoutOverflow)) := by
  constructor
  · intro r hr
    by_cases hal : (validateCommand cmd).allowed
    · simp only [executeSandboxed, hal, if_true] at hr
      have hset : (runSandbox N evs).settled = some (.resolvedOk r) := by
        split at hr <;> simp_all
      exact foldl_resolvedCapped evs initialSandboxState
        (by intro r' hr'; simp [initialSandboxState] at hr') r hset
    · rw [Bool.not_eq_true] at hal
      simp [executeSandboxed, hal] at hr
  · intro st chunk hset hkill hlen
    have hlen' : N < st.stdoutBuf.length + chunk.length := by simpa using hlen
    simp [sandboxStep, settleWith, hset, hkill, hlen']

theorem output_limit_per_stream_witness :
    (initialSandboxState.settled = none ∧ initialSandboxState.killed = false ∧
        4 < (initialSandboxState.stdoutBuf ++ "aaaaa".data).length) ∧
      (sandboxStep 4 initialSandboxState (.stdoutData "aaaaa".data)).settled
        = some (.rejectedErr .stdoutOverflow) :=
  ⟨⟨rfl, rfl, by decide⟩,
    (output_limit_per_stream 4 "echo x" []).2 initialSandboxState "aaaaa".data rfl rfl (by decide)⟩

/-- C7 (code bug): after the timeout fires (SIGTERM sent, promise rejected)
and the 5-second grace timer then fires, no SIGKILL is ever sent — the
grace handler tests `!childProcess.killed`, which is already true because
`.killed` records that SIGTERM was sent — so a SIGTERM-ignoring process is
never force-killed, and the invocation rejects rather than resolving with a
Timeout violation. -/
theorem timeout_path_never_sigkills :
    (runSandbox 10 [.timeoutFire, .graceFire]).settled = some (.rejectedErr .timeoutErr)
    ∧ (runSandbox 10 [.timeoutFire, .graceFire]).termSent = true
    ∧ (runSandbox 10 [.timeoutFire, .graceFire]).sigkillSent = false
    ∧ (runSandbox 10 [.timeoutFire, .graceFire]).childExited = false := by decide

/-! ## Validator lemmas: sanitisation, trimming, membership -/

theorem mem_dropWhile_of_mem {p : Char → Bool} {c : Char} :
    ∀ {l : List Char}, c ∈ l → p c = false → c ∈ l.dropWhile p := by
  intro l
  induction l with
  | nil => intro h; simp at h
  | cons a as ih =>
      intro hmem hpc
      rw [List.dropWhile_cons]
      rcases List.mem_cons.mp hmem with rfl | has
      · simp [hpc]
      · split
        · exact ih has hpc
        · exact List.mem_cons_of_mem _ has

theorem mem_dropTrailingWs {c : Char} {l : List Char} (hc : jsWhitespace c = false)
    (h : c ∈ l) : c ∈ dropTrailingWs l := by
  unfold dropTrailingWs
  rw [List.mem_reverse]
  exact mem_dropWhile_of_mem (List.mem_reverse.mpr h) hc

theorem mem_jsTrimList {c : Char} {l : List Char} (hc : jsWhitespace c = false)
    (h : c ∈ l) : c ∈ jsTrimList l :=
  mem_dropTrailingWs hc (mem_dropWhile_of_mem h hc)

theorem not_mem_takeUntilChar (sep : Char) (l : List Char) :
    sep ∉ takeUntilChar sep l := by
  intro h
  have := List.mem_takeWhile_imp h
  simp at this

theorem dropTrailingWs_sublist (l : List Char) : (dropTrailingWs l).Sublist l := by
  unfold dropTrailingWs
  have h := (List.dropWhile_sublist (l := l.reverse) (fun c => jsWhitespace c)).reverse
  rwa [List.reverse_reverse] at h

theorem jsTrimList_sublist (l : List Char) : (jsTrimList l).Sublist l :=
  (dropTrailingWs_sublist _).trans (List.dropWhile_sublist _)

/-- None of the four shell metacharacters survives the sanitisation chain. -/
theorem not_mem_sanitizeChain {c : Char} (hc : c = '|' ∨ c = '>' ∨ c = '<' ∨ c = '&')
    (l : List Char) : c ∉ sanitizeChain l := by
  intro hmem
  have h1 : c ∈ takeUntilChar '&' (takeUntilChar '<' (takeUntilChar '>' (takeUntilChar '|' l))) :=
    (jsTrimList_sublist _).mem hmem
  rcases hc with rfl | rfl | rfl | rfl
  · exact not_mem_takeUntilChar '|' l
      (((List.takeWhile_sublist _).trans ((List.takeWhile_sublist _).trans
        (List.takeWhile_sublist _))).mem h1)
  · exact not_mem_takeUntilChar '>' _
      (((List.takeWhile_sublist _).trans (List.takeWhile_sublist _)).mem h1)
  · exact not_mem_takeUntilChar '<' _ ((List.takeWhile_sublist _).mem h1)
  · exact not_mem_takeUntilChar '&' _ h1

/-! ## Claim theorems for the validator (C4, C5, C9) -/

/-- C4 (counterexample): `"ls su "` matches the denylist pattern `/su\s+/i`,
yet `validateCommand` reports it allowed — the patterns are tested against
the *trimmed* sanitised command, and this match lives only in the trailing
whitespace that trimming removes. -/
theorem denylist_match_lost_by_trim :
    DANGEROUS_PATTERNS.any (fun p => rtest p "ls su ") = true
    ∧ (validateCommand "ls su ").allowed = true := by decide

theorem isCommandAllowed_eq_false_of_dangerous {s : String}
    (h : DANGEROUS_PATTERNS.any (fun p => rtest p s) = true) :
    isCommandAllowed s = false := by
  by_cases h0 : s = "" <;> simp [isCommandAllowed, h0, h]

/-- C4 (amended): any command whose *sanitised* form (metacharacter-stripped
and trimmed — the string the code actually tests) matches a denylist
pattern is rejected, regardless of allowlist membership. -/
theorem sanitized_denylist_match_rejected (cmd : String)
    (h : DANGEROUS_PATTERNS.any
        (fun p => rtest p (String.mk (sanitizeChain cmd.data))) = true) :
    (validateCommand cmd).allowed = false := by
  by_cases h0 : cmd = ""
  · simp [validateCommand, h0]
  · by_cases heq : String.mk (sanitizeChain cmd.data) = String.mk (jsTrimList cmd.data)
    · have h' := h
      rw [heq] at h'
      simp [validateCommand, h0, heq, isCommandAllowed_eq_false_of_dangerous h']
    · simp [validateCommand, h0, heq]

theorem sanitized_denylist_match_rejected_witness :
    DANGEROUS_PATTERNS.any
        (fun p => rtest p (String.mk (sanitizeChain ("sudo ls" : String).data))) = true
    ∧ (validateCommand "sudo ls").allowed = false :=
  ⟨by decide, sanitized_denylist_match_rejected "sudo ls" (by decide)⟩

/-- C5: a command containing `|`, `>`, `<` or `&` is always rejected with
the shell-metacharacter reason — the sanitisation chain removes the
character, so the sanitised string can never equal the trimmed command. -/
theorem metachar_always_rejected (cmd : String) (c : Char)
    (hc : c = '|' ∨ c = '>' ∨ c = '<' ∨ c = '&') (hmem : c ∈ cmd.data) :
    validateCommand cmd
      = { allowed := false, sanitized := none,
          reason := some "Shell redirection/piping not allowed" } := by
  have hne : cmd ≠ "" := by
    rintro rfl
    exact (List.not_mem_nil c) hmem
  have hws : jsWhitespace c = false := by rcases hc with rfl | rfl | rfl | rfl <;> decide
  have h1 : c ∈ jsTrimList cmd.data := mem_jsTrimList hws hmem
  have h2 : c ∉ sanitizeChain cmd.data := not_mem_sanitizeChain hc cmd.data
  have hne2 : String.mk (sanitizeChain cmd.data) ≠ String.mk (jsTrimList cmd.data) := by
    intro h
    injection h with h
    rw [h] at h2
    exact h2 h1
  simp [validateCommand, hne, hne2]

theorem metachar_always_rejected_witness :
    (('&' : Char) = '|' ∨ ('&' : Char) = '>' ∨ ('&' : Char) = '<' ∨ ('&' : Char) = '&')
    ∧ '&' ∈ ("git status && rm -rf /" : String).data
    ∧ validateCommand "git status && rm -rf /"
        = { allowed := false, sanitized := none,
            reason := some "Shell redirection/piping not allowed" } :=
  ⟨by decide, by decide,
    metachar_always_rejected "git status && rm -rf /" '&' (by decide) (by decide)⟩

/-- C9 (counterexample): a denylist match (`"sudo ls"`) and a plain
allowlist miss (`"foobar"`) produce the *same* reason string
`"Command not in allowlist"` — the result does not name the offending
pattern class nor distinguish the two rejection causes. -/
theorem denylist_reason_not_distinguished :
    validateCommand "sudo ls"
        = { allowed := false, sanitized := none, reason := some "Command not in allowlist" }
    ∧ validateCommand "foobar"
        = { allowed := false, sanitized := none, reason := some "Command not in allowlist" }
    ∧ DANGEROUS_PATTERNS.any (fun p => rtest p "sudo ls") = true
    ∧ DANGEROUS_PATTERNS.any (fun p => rtest p "foobar") = false := by decide

/-- C9 (amended): every rejection carries one of exactly three reasons —
invalid command, shell metacharacter, or the generic
`"Command not in allowlist"` — and a denylist match that passes the
metacharacter check gets the same generic reason as an allowlist miss,
not one naming the pattern class. -/
theorem rejection_reasons_catalog (cmd : String) :
    ((validateCommand cmd).allowed = false →
        (validateCommand cmd).reason = some "Invalid command"
        ∨ (validateCommand cmd).reason = some "Shell redirection/piping not allowed"
        ∨ (validateCommand cmd).reason = some "Command not in allowlist")
    ∧ (cmd ≠ "" →
        String.mk (sanitizeChain cmd.data) = String.mk (jsTrimList cmd.data) →
        DANGEROUS_PATTERNS.any
            (fun p => rtest p (String.mk (sanitizeChain cmd.data))) = true →
        validateCommand cmd
          = { allowed := false, sanitized := none,
              reason := some "Command not in allowlist" }) := by
  constructor
  · intro hal
    by_cases h0 : cmd = ""
    · simp [validateCommand, h0]
    · by_cases heq : String.mk (sanitizeChain cmd.data) = String.mk (jsTrimList cmd.data)
      · by_cases hca : isCommandAllowed (String.mk (jsTrimList cmd.data))
        · simp [validateCommand, h0, heq, hca] at hal
        · simp [validateCommand, h0, heq, hca]
      · simp [validateCommand, h0, heq]
  · intro h0 heq hdan
    rw [heq] at hdan
    simp [validateCommand, h0, heq, isCommandAllowed_eq_false_of_dangerous hdan]

theorem rejection_reasons_catalog_witness :
    (("sudo ls" : String) ≠ ""
      ∧ String.mk (sanitizeChain ("sudo ls" : String).data)
          = String.mk (jsTrimList ("sudo ls" : String).data)
      ∧ DANGEROUS_PATTERNS.any
          (fun p => rtest p (String.mk (sanitizeChain ("sudo ls" : String).data))) = true)
    ∧ validateCommand "sudo ls"
        = { allowed := false, sanitized := none, reason := some "Command not in allowlist" } :=
  ⟨⟨by decide, by decide, by decide⟩,
    (rejection_reasons_catalog "sudo ls").2 (by decide) (by decide) (by decide)⟩

/-! ## Claim theorems for the confirmation gate (C6) and secret store (C8) -/

/-- C6: the `/create-pr` gate proceeds to the git mutations exactly when
dry-run is disabled and `confirm` is literally `true`; in every other case
it returns a preview (branch name, commit message, staged files, ordered
operations) and runs no mutating git command. -/
theorem createPr_gate_policy (dryRun : Bool) (b m staged : String) (confirm : Option Bool)
    (hb : b ≠ "") (hm : m ≠ "") :
    ((createPr dryRun b m staged confirm).response = .executed b m
        ↔ (dryRun = false ∧ confirm = some true))
    ∧ (¬(dryRun = false ∧ confirm = some true) →
        (createPr dryRun b m staged confirm).gitMutations = []
        ∧ ((createPr dryRun b m staged confirm).response
              = .confirmationRequired (prPreview b m staged)
          ∨ (createPr dryRun b m staged confirm).response
              = .dryRunPreview (prPreview b m staged))) := by
  have hbm : ¬(b = "" ∨ m = "") := by tauto
  by_cases hc : confirm = some true <;> cases dryRun <;>
    simp [createPr, hbm, hc]

theorem createPr_gate_policy_witness :
    (("feat-x" : String) ≠ "" ∧ ("add tests" : String) ≠ "")
    ∧ (((createPr false "feat-x" "add tests" "a.js" none).response
          = .executed "feat-x" "add tests" ↔ (false = false ∧ (none : Option Bool) = some true))
      ∧ (¬(false = false ∧ (none : Option Bool) = some true) →
          (createPr false "feat-x" "add tests" "a.js" none).gitMutations = []
          ∧ ((createPr false "feat-x" "add tests" "a.js" none).response
                = .confirmationRequired (prPreview "feat-x" "add tests" "a.js")
            ∨ (createPr false "feat-x" "add tests" "a.js" none).response
                = .dryRunPreview (prPreview "feat-x" "add tests" "a.js")))) :=
  ⟨⟨by decide, by decide⟩,
    createPr_gate_policy false "feat-x" "add tests" "a.js" none (by decide) (by decide)⟩

/-- C8 (counterexample): with the backend available but `setPassword`
failing at runtime, `storeApiKey` throws a wrapped error instead of
returning `false`. -/
theorem store_throws_on_backend_error :
    storeApiKey { importOk := true, setPasswordError := some "disk error" } "sk-123"
      = .threw "Keychain storage failed: disk error" := by decide

/-- C8 (amended): when the backend cannot be loaded (not installed,
unsupported platform, import failure), `storeApiKey` returns `false` after
logging the keychain-unavailable warning; but a runtime error thrown by an
*available* backend during the store itself is rethrown, not converted to
`false`. -/
theorem store_returns_false_when_unavailable (env : KeychainEnv) (key : String)
    (hk : key ≠ "") (h : env.importOk = false) :
    storeApiKey env key = .returned false true := by
  simp [storeApiKey, hk, h]

/-! ## Matcher lemmas for C10 -/

/-- An unanchored prefix match survives extending the input to the right. -/
theorem matchHere_append_right (u : List Char) :
    ∀ (t : List Char) (items : List RItem),
      matchHere items false t = true → matchHere items false (t ++ u) = true := by
  intro t
  induction t with
  | nil =>
      intro items h
      simp only [matchHere] at h
      cases u <;> simp [matchHere, h]
  | cons c cs ih =>
      intro items h
      simp only [matchHere, Bool.not_false, Bool.true_and, Bool.or_eq_true,
        List.any_eq_true] at h ⊢
      rcases h with h | ⟨next, hmem, hm⟩
      · exact Or.inl h
      · exact Or.inr ⟨next, hmem, ih next hm⟩

theorem searchIn_of_matchHere {items : List RItem} {anchor : Bool} {l : List Char}
    (h : matchHere items anchor l = true) : searchIn items anchor l = true := by
  cases l <;> simp [searchIn, h]

theorem searchIn_append_right {items : List RItem} (u : List Char) :
    ∀ t : List Char, searchIn items false t = true → searchIn items false (t ++ u) = true := by
  intro t
  induction t with
  | nil =>
      intro h
      simp only [searchIn] at h
      exact searchIn_of_matchHere (matchHere_append_right u [] items h)
  | cons c cs ih =>
      intro h
      simp only [searchIn, Bool.or_eq_true] at h ⊢
      rcases h with h | h
      · exact Or.inl (matchHere_append_right u (c :: cs) items h)
      · exact Or.inr (ih h)

theorem matchHere_eq_false_of_prefixBlocked :
    ∀ (pre : List Char) (items : List RItem) (anchor : Bool) (t : List Char),
      prefixBlocked items pre = true → matchHere items anchor (pre ++ t) = false := by
  intro pre
  induction pre with
  | nil => intro items anchor t h; simp [prefixBlocked] at h
  | cons c cs ih =>
      intro items anchor t h
      simp only [prefixBlocked, Bool.and_eq_true, Bool.not_eq_true', List.all_eq_true] at h
      simp only [List.cons_append, matchHere, h.1, Bool.and_false, Bool.false_or,
        List.any_eq_false]
      intro next hmem
      simp [ih next anchor t (h.2 next hmem)]

/-- A successful search in `pre ++ t` either matches starting inside `pre`
or is a successful search in `t`. -/
theorem searchIn_prefix_cases {items : List RItem} {anchor : Bool} :
    ∀ (pre t : List Char), searchIn items anchor (pre ++ t) = true →
      (∃ i, i < pre.length ∧ matchHere items anchor (pre.drop i ++ t) = true)
      ∨ searchIn items anchor t = true := by
  intro pre
  induction pre with
  | nil => intro t h; exact Or.inr (by simpa using h)
  | cons c cs ih =>
      intro t h
      simp only [List.cons_append, searchIn, Bool.or_eq_true] at h
      rcases h with h | h
      · exact Or.inl ⟨0, by simp, by simpa using h⟩
      · rcases ih t h with ⟨i, hi, hm⟩ | h2
        · exact Or.inl ⟨i + 1, by simpa using hi, by simpa using hm⟩
        · exact Or.inr h2

theorem searchIn_append_eq_false {items : List RItem} {anchor : Bool} {pre t : List Char}
    (hb : ∀ i, i < pre.length → prefixBlocked items (pre.drop i) = true)
    (ht : searchIn items anchor t = false) :
    searchIn items anchor (pre ++ t) = false := by
  by_contra h
  rw [Bool.not_eq_false] at h
  rcases searchIn_prefix_cases pre t h with ⟨i, hi, hm⟩ | h2
  · rw [matchHere_eq_false_of_prefixBlocked _ _ _ _ (hb i hi)] at hm
    exact Bool.false_ne_true hm
  · rw [ht] at h2
    exact Bool.false_ne_true h2

/-- A pattern starting with a literal whose upper-case form is itself can
only match at a position holding that very character. -/
theorem first_lit_mem {c : Char} (hup : upChar c = c) {l : List Char} {rest : List RItem}
    {anchor : Bool}
    (h : matchHere (RItem.once (RAtom.lit c) :: rest) anchor l = true) : c ∈ l := by
  cases l with
  | nil => simp [matchHere, nullMatch] at h
  | cons d ds =>
      simp only [matchHere, nullMatch, Bool.and_false, Bool.false_or,
        List.any_eq_true] at h
      obtain ⟨next, hmem, -⟩ := h
      simp only [stepItems] at hmem
      split at hmem
      · rename_i hatom
        simp only [matchAtom, hup, Bool.or_self, beq_iff_eq] at hatom
        subst hatom
        exact List.mem_cons_self _ _
      · simp at hmem

theorem searchIn_first_lit_mem {c : Char} (hup : upChar c = c) {rest : List RItem}
    {anchor : Bool} :
    ∀ {l : List Char},
      searchIn (RItem.once (RAtom.lit c) :: rest) anchor l = true → c ∈ l := by
  intro l
  induction l with
  | nil => intro h; simp [searchIn, matchHere, nullMatch] at h
  | cons d ds ih =>
      intro h
      simp only [searchIn, Bool.or_eq_true] at h
      rcases h with h | h
      · exact first_lit_mem hup h
      · exact List.mem_cons_of_mem _ (ih h)

/-! ## Trim lemmas for C10 -/

theorem takeUntilChar_eq_self {sep : Char} :
    ∀ {l : List Char}, sep ∉ l → takeUntilChar sep l = l := by
  intro l
  induction l with
  | nil => intro _; rfl
  | cons a as ih =>
      intro h
      have ha : ¬ a = sep := fun hh => h (hh ▸ List.mem_cons_self a as)
      have has : sep ∉ as := fun hh => h (List.mem_cons_of_mem _ hh)
      have ihs := ih has
      simp only [takeUntilChar, List.takeWhile_cons] at ihs ⊢
      simp [ha, ihs]

theorem dropTrailingWs_append_all_ws {t : List Char}
    (h : ∀ c ∈ t, jsWhitespace c = true) (l : List Char) :
    dropTrailingWs (l ++ t) = dropTrailingWs l := by
  unfold dropTrailingWs
  rw [List.reverse_append, List.dropWhile_append]
  have ht : t.reverse.dropWhile (fun c => jsWhitespace c) = [] :=
    List.dropWhile_eq_nil_iff.mpr (fun x hx => h x (List.mem_reverse.mp hx))
  simp [ht]

theorem dropTrailingWs_append_of_nonws {t l : List Char} {c : Char}
    (hc : c ∈ t) (hws : jsWhitespace c = false) :
    dropTrailingWs (l ++ t) = l ++ dropTrailingWs t := by
  have hne : t.reverse.dropWhile (fun d => jsWhitespace d) ≠ [] := by
    intro h
    rw [List.dropWhile_eq_nil_iff] at h
    have := h c (List.mem_reverse.mpr hc)
    rw [hws] at this
    exact Bool.false_ne_true this
  unfold dropTrailingWs
  rw [List.reverse_append, List.dropWhile_append, if_neg (by simpa using hne),
    List.reverse_append, List.reverse_reverse]

theorem dropWhile_self_idem {p : Char → Bool} :
    ∀ l : List Char, (l.dropWhile p).dropWhile p = l.dropWhile p := by
  intro l
  induction l with
  | nil => rfl
  | cons a as ih =>
      rw [List.dropWhile_cons]
      split
      · exact ih
      · rw [List.dropWhile_cons, if_neg (by assumption)]

theorem dropTrailingWs_idem (l : List Char) :
    dropTrailingWs (dropTrailingWs l) = dropTrailingWs l := by
  unfold dropTrailingWs
  rw [List.reverse_reverse, dropWhile_self_idem]

/-- `dropTrailingWs l` is a prefix of `l`. -/
theorem dropTrailingWs_prefix (l : List Char) : ∃ u, l = dropTrailingWs l ++ u := by
  obtain ⟨u, hu⟩ := List.dropWhile_suffix (l := l.reverse) (fun c => jsWhitespace c)
  refine ⟨u.reverse, ?_⟩
  conv_lhs => rw [← List.reverse_reverse l, ← hu]
  rw [List.reverse_append]
  rfl

theorem store_returns_false_when_unavailable_witness :
    (("sk-abc" : String) ≠ ""
      ∧ ({ importOk := false, setPasswordError := none } : KeychainEnv).importOk = false)
    ∧ storeApiKey { importOk := false, setPasswordError := none } "sk-abc"
        = .returned false true :=
  ⟨⟨by decide, rfl⟩,
    store_returns_false_when_unavailable _ "sk-abc" (by decide) rfl⟩
/-! ## C10: the `node` allowlist entry admits arbitrary arguments -/

/-- C10: every allowlist entry with an empty allowed-argument set admits
arbitrary arguments (`allowedArgs.length === 0` returns `true` before any
argument check), so `node <anything>` validates as allowed whenever the
argument string introduces no shell metacharacter and no denylist match —
despite the source comment "Only allow running test scripts, not arbitrary
scripts" above the empty `node` entry. -/
theorem node_admits_arbitrary_arguments (s : String)
    (hp : '|' ∉ s.data) (hg : '>' ∉ s.data) (hl : '<' ∉ s.data) (ha : '&' ∉ s.data)
    (hpat : ∀ p ∈ DANGEROUS_PATTERNS, rtest p s = false) :
    (validateCommand ("node " ++ s)).allowed = true := by
  have hD : ("node " ++ s).data = 'n' :: 'o' :: 'd' :: 'e' :: ' ' :: s.data := by
    rw [String.data_append]
    rfl
  have hne : ("node " ++ s) ≠ "" := by
    intro h
    have h2 := congrArg String.data h
    rw [hD] at h2
    simp at h2
  have hp' : '|' ∉ ("node " ++ s).data := by rw [hD]; simp [hp]
  have hg' : '>' ∉ ("node " ++ s).data := by rw [hD]; simp [hg]
  have hl' : '<' ∉ ("node " ++ s).data := by rw [hD]; simp [hl]
  have ha' : '&' ∉ ("node " ++ s).data := by rw [hD]; simp [ha]
  have hsan : sanitizeChain ("node " ++ s).data = jsTrimList ("node " ++ s).data := by
    unfold sanitizeChain
    rw [takeUntilChar_eq_self hp', takeUntilChar_eq_self hg',
      takeUntilChar_eq_self hl', takeUntilChar_eq_self ha']
  have hmkeq : String.mk (sanitizeChain ("node " ++ s).data)
      = String.mk (jsTrimList ("node " ++ s).data) := by rw [hsan]
  by_cases hall : ∀ c ∈ s.data, jsWhitespace c = true
  · -- the argument part is all whitespace: the command trims to "node"
    have hwsall : ∀ c ∈ (' ' :: s.data), jsWhitespace c = true := by
      intro c hc
      rcases List.mem_cons.mp hc with rfl | hc'
      · decide
      · exact hall c hc'
    have htrim : jsTrimList ("node " ++ s).data = ['n', 'o', 'd', 'e'] := by
      rw [hD]
      unfold jsTrimList
      rw [List.dropWhile_cons, if_neg (by decide)]
      have h5 : ('n' :: 'o' :: 'd' :: 'e' :: ' ' :: s.data)
          = ['n', 'o', 'd', 'e'] ++ (' ' :: s.data) := rfl
      rw [h5, dropTrailingWs_append_all_ws hwsall ['n', 'o', 'd', 'e']]
      decide
    have hICA : isCommandAllowed (String.mk ['n', 'o', 'd', 'e']) = true := by decide
    have hsan' : sanitizeChain ('n' :: 'o' :: 'd' :: 'e' :: ' ' :: s.data)
        = jsTrimList ('n' :: 'o' :: 'd' :: 'e' :: ' ' :: s.data) := by
      rw [← hD]; exact hsan
    have htrim' : jsTrimList ('n' :: 'o' :: 'd' :: 'e' :: ' ' :: s.data)
        = ['n', 'o', 'd', 'e'] := by
      rw [← hD]; exact htrim
    simp [validateCommand, hne, hD, hsan', htrim', hICA]
  · -- the argument part has a non-whitespace character
    push_neg at hall
    obtain ⟨c0, hc0, hc0wt⟩ := hall
    have hc0w : jsWhitespace c0 = false := by simpa using hc0wt
    have hc0T : c0 ∈ dropTrailingWs s.data := mem_dropTrailingWs hc0w hc0
    have htrim : jsTrimList ("node " ++ s).data
        = ['n', 'o', 'd', 'e', ' '] ++ dropTrailingWs s.data := by
      rw [hD]
      unfold jsTrimList
      rw [List.dropWhile_cons, if_neg (by decide)]
      have h5 : ('n' :: 'o' :: 'd' :: 'e' :: ' ' :: s.data)
          = ['n', 'o', 'd', 'e', ' '] ++ s.data := rfl
      rw [h5, dropTrailingWs_append_of_nonws hc0 hc0w]
    have hblk : ∀ p ∈ DANGEROUS_PATTERNS, ∀ i, i < 5 →
        prefixBlocked p.items (List.drop i ['n', 'o', 'd', 'e', ' ']) = true := by decide
    have hpipeHead : ∀ p ∈ DANGEROUS_PATTERNS, p.anchorEnd = true →
        p.items.head? = some (RItem.once (RAtom.lit '|')) := by decide
    have hdatamk : (String.mk (['n', 'o', 'd', 'e', ' '] ++ dropTrailingWs s.data)).data
        = ['n', 'o', 'd', 'e', ' '] ++ dropTrailingWs s.data := rfl
    have hdanger : DANGEROUS_PATTERNS.any
        (fun p => rtest p (String.mk (['n', 'o', 'd', 'e', ' '] ++ dropTrailingWs s.data)))
          = false := by
      rw [List.any_eq_false]
      intro p hpmem
      rw [Bool.not_eq_true, rtest, hdatamk]
      cases hanc : p.anchorEnd with
      | false =>
          have ht : searchIn p.items false (dropTrailingWs s.data) = false := by
            by_contra hcon
            rw [Bool.not_eq_false] at hcon
            obtain ⟨u, hu⟩ := dropTrailingWs_prefix s.data
            have hext := searchIn_append_right u _ hcon
            rw [← hu] at hext
            have hps := hpat p hpmem
            rw [rtest, hanc, hext] at hps
            simp at hps
          exact searchIn_append_eq_false (fun i hi => hblk p hpmem i hi) ht
      | true =>
          have hhead := hpipeHead p hpmem hanc
          obtain ⟨rest', hrest⟩ : ∃ r, p.items = RItem.once (RAtom.lit '|') :: r := by
            cases hi : p.items with
            | nil => rw [hi] at hhead; simp at hhead
            | cons a as =>
                rw [hi] at hhead
                simp only [List.head?_cons, Option.some.injEq] at hhead
                exact ⟨as, by rw [hhead]⟩
          by_contra hcon
          rw [Bool.not_eq_false] at hcon
          rw [hrest] at hcon
          have hmem := searchIn_first_lit_mem (by decide) hcon
          rcases List.mem_append.mp hmem with hmem1 | hmem2
          · simp at hmem1
          · exact hp ((dropTrailingWs_sublist s.data).mem hmem2)
    have hjt : jsTrimList (['n', 'o', 'd', 'e', ' '] ++ dropTrailingWs s.data)
        = ['n', 'o', 'd', 'e', ' '] ++ dropTrailingWs s.data := by
      unfold jsTrimList
      have hdw : ((['n', 'o', 'd', 'e', ' '] ++ dropTrailingWs s.data).dropWhile
          (fun c => jsWhitespace c)) = ['n', 'o', 'd', 'e', ' '] ++ dropTrailingWs s.data := by
        rw [show (['n', 'o', 'd', 'e', ' '] ++ dropTrailingWs s.data)
            = 'n' :: ('o' :: 'd' :: 'e' :: ' ' :: dropTrailingWs s.data) from rfl]
        rw [List.dropWhile_cons, if_neg (by decide)]
      rw [hdw, dropTrailingWs_append_of_nonws hc0T hc0w, dropTrailingWs_idem]
    have hwords : wordsOf (['n', 'o', 'd', 'e', ' '] ++ dropTrailingWs s.data)
        = ['n', 'o', 'd', 'e'] :: wordsOfAux [] (dropTrailingWs s.data) := by
      simp [wordsOf, wordsOfAux, jsWhitespace]
    have hlook : lookupCmd (String.mk ['n', 'o', 'd', 'e']) ALLOWED_COMMANDS = some [] := by
      decide
    have hICA : isCommandAllowed
        (String.mk (['n', 'o', 'd', 'e', ' '] ++ dropTrailingWs s.data)) = true := by
      have hne2 : String.mk (['n', 'o', 'd', 'e', ' '] ++ dropTrailingWs s.data) ≠ "" := by
        intro h
        have h2 := congrArg String.data h
        rw [hdatamk] at h2
        simp at h2
      simp only [isCommandAllowed, hne2, if_false, hdatamk, hdanger, hjt, hwords, hlook]
      simp
    have hsan' : sanitizeChain ('n' :: 'o' :: 'd' :: 'e' :: ' ' :: s.data)
        = jsTrimList ('n' :: 'o' :: 'd' :: 'e' :: ' ' :: s.data) := by
      rw [← hD]; exact hsan
    have htrim' : jsTrimList ('n' :: 'o' :: 'd' :: 'e' :: ' ' :: s.data)
        = ['n', 'o', 'd', 'e', ' '] ++ dropTrailingWs s.data := by
      rw [← hD]; exact htrim
    have hICA' : isCommandAllowed
        (String.mk ('n' :: 'o' :: 'd' :: 'e' :: ' ' :: dropTrailingWs s.data)) = true := hICA
    simp [validateCommand, hne, hD, hsan', htrim', hICA']

theorem node_admits_arbitrary_arguments_witness :
    (('|' ∉ ("evil-script.js" : String).data) ∧ ('>' ∉ ("evil-script.js" : String).data)
      ∧ ('<' ∉ ("evil-script.js" : String).data) ∧ ('&' ∉ ("evil-script.js" : String).data)
      ∧ (∀ p ∈ DANGEROUS_PATTERNS, rtest p "evil-script.js" = false))
    ∧ (validateCommand ("node " ++ "evil-script.js")).allowed = true :=
  ⟨⟨by decide, by decide, by decide, by decide, by decide⟩,
    node_admits_arbitrary_arguments "evil-script.js"
      (by decide) (by decide) (by decide) (by decide) (by decide)⟩
